import Mathlib

/-!
Shallow embedding of the lrud focus-navigation utility core (src/src/utils.ts).

Modelling conventions:
  - A JS node object is the inductive type Node below, keeping the fields the
    utility functions consult.  The children object is modelled as an
    association list in key-insertion order, wrapped in Option so that a
    missing children field (undefined, falsy in JS) is distinguished from an
    empty children object (truthy in JS).
  - A JS number field that may be absent is Option Int; comparisons against an
    absent value follow the JS semantics where any comparison with undefined
    (NaN arithmetic) is false.
  - The selectAction field is kept as the truthiness of its value, which is
    all the code ever reads of it.
  - The isFocusable field is Option Bool: none models absent or null, which is
    exactly the (isFocusable != null) test in the source.
-/

inductive Node where
  | mk (parent : Option String) (index : Option Int) (indexRange : Option (Int × Int))
       (selectAction : Bool) (isFocusable : Option Bool) (activeChild : Option String)
       (children : Option (List (String × Node))) : Node

def Node.parent : Node → Option String
  | .mk p _ _ _ _ _ _ => p

def Node.index : Node → Option Int
  | .mk _ i _ _ _ _ _ => i

def Node.indexRange : Node → Option (Int × Int)
  | .mk _ _ r _ _ _ _ => r

def Node.selectAction : Node → Bool
  | .mk _ _ _ s _ _ _ => s

def Node.isFocusable : Node → Option Bool
  | .mk _ _ _ _ f _ _ => f

def Node.activeChild : Node → Option String
  | .mk _ _ _ _ _ a _ => a

def Node.children : Node → Option (List (String × Node))
  | .mk _ _ _ _ _ _ c => c

/-- Lookup of node.children[childId] on the association list: the first entry
whose key matches. -/
def lookupChild : List (String × Node) → String → Option Node
  | [], _ => none
  | (k, n) :: rest, key => if k = key then some n else lookupChild rest key

/-- Source line 19: isNodeFocusable returns node.isFocusable when that field is
not null and not undefined, otherwise the truthiness of node.selectAction. -/
def isNodeFocusable (node : Node) : Bool :=
  match node.isFocusable with
  | some b => b
  | none => node.selectAction

/-- JS comparison curr >= bound where curr may be undefined: a comparison
involving undefined is false. -/
def jsGeOpt : Option Int → Int → Bool
  | some i, b => decide (b ≤ i)
  | none, _ => false

/-- JS comparison curr <= bound where curr may be undefined. -/
def jsLeOpt : Option Int → Int → Bool
  | some i, b => decide (i ≤ b)
  | none, _ => false

/-- JS test Math.abs(curr - goal) < Math.abs(prev - goal) where either operand
may be undefined; arithmetic on undefined yields NaN and every NaN comparison
is false, so the test only succeeds when both values are proper numbers. -/
def jsAbsLt (goal : Int) (curr prev : Option Int) : Bool :=
  match curr, prev with
  | some c, some p => decide ((c - goal).natAbs < (p - goal).natAbs)
  | _, _ => false

/-- Source lines 10-12: Closest is values.reduce with no initial accumulator.
JS reduce with no initial value throws a TypeError on an empty array, modelled
here by the result none; on a non-empty array it folds from the first element. -/
def ClosestJS (values : List (Option Int)) (goal : Int) : Option (Option Int) :=
  match values with
  | [] => none
  | v :: rest => some (rest.foldl (fun prev curr => if jsAbsLt goal curr prev then curr else prev) v)

/-- Source lines 121-124: the Object.keys find inside _findChildWithIndex,
returning the first key whose child has an index strictly equal (===) to the
given value; undefined === undefined holds, so an absent target matches an
absent index field. -/
def firstMatchKey : List (String × Node) → Option Int → Option String
  | [], _ => none
  | (k, n) :: rest, tgt => if n.index = tgt then some k else firstMatchKey rest tgt

/-- Source lines 126-130: the found key is tested for truthiness before the
child is looked up and returned, so a matching child stored under the
empty-string key, which is falsy in JS, yields null. -/
def findChildWithIndexIn (cs : List (String × Node)) (tgt : Option Int) : Option Node :=
  match firstMatchKey cs tgt with
  | some k => if k = "" then none else lookupChild cs k
  | none => none

def _findChildWithIndex (node : Node) (index : Option Int) : Option Node :=
  match node.children with
  | none => none
  | some cs => findChildWithIndexIn cs index

/-- Source lines 154-156: the indexes of the children that are either focusable
or themselves carry a children object (the navigable candidate set). -/
def candidateIndexes (cs : List (String × Node)) : List (Option Int) :=
  (cs.filter (fun kn => isNodeFocusable kn.2 || kn.2.children.isSome)).map (fun kn => kn.2.index)

/-- Source lines 142-162: _findChildWithClosestIndex.  The Except layer records
the one way the function can throw: the unguarded reduce inside Closest, which
raises a TypeError when handed an empty array.  Except.error models that throw
and Except.ok the normal return value (some child or null). -/
def activeChildOf (node : Node) (cs : List (String × Node)) : Option Node :=
  match node.activeChild with
  | some a => lookupChild cs a
  | none => none

/-- Source lines 149-152: the index-align shortcut condition.  The guard is
indexRange truthy, the active child resolves, its index lies inside the range
(comparisons with an undefined index are false), and the active child is
focusable; when it holds the active child itself is the result. -/
def shortcutChild (node : Node) (cs : List (String × Node)) (indexRange : Option (Int × Int)) :
    Option Node :=
  match indexRange, activeChildOf node cs with
  | some r, some ac =>
    if jsGeOpt ac.index r.1 && jsLeOpt ac.index r.2 && isNodeFocusable ac then some ac else none
  | _, _ => none

def _findChildWithClosestIndex (node : Node) (index : Int) (indexRange : Option (Int × Int)) :
    Except Unit (Option Node) :=
  match node.children with
  | none => Except.ok none
  | some cs =>
    match shortcutChild node cs indexRange with
    | some ac => Except.ok (some ac)
    | none =>
      let indexes := candidateIndexes cs
      if indexes.length ≤ 0 then Except.ok none
      else
        match ClosestJS indexes index with
        | none => Except.error ()
        | some target => Except.ok (_findChildWithIndex node target)

/-- Depth-first pre-order list of every key of the recursive tree object. -/
def preorderKeys : List (String × Node) → List String
  | [] => []
  | (k, Node.mk _ _ _ _ _ _ (some cs)) :: rest => k :: (preorderKeys cs ++ preorderKeys rest)
  | (k, Node.mk _ _ _ _ _ _ none) :: rest => k :: preorderKeys rest

/-- Flattened record produced by getNodesFromTree: every node field is copied,
id is overridden with the tree key, children is stripped (the record carries no
children field), and parent is the resolved parent id. -/
structure FlatNode where
  id : String
  parent : Option String
  index : Option Int
  indexRange : Option (Int × Int)
  selectAction : Bool
  isFocusable : Option Bool
  activeChild : Option String
deriving DecidableEq

/-- JS expression (tree[treeProperty].parent || parent) from source line 189:
the explicit parent field wins only when it is truthy, and the empty string is
falsy in JS, so an explicit empty-string parent falls back to the structural
parent. -/
def jsOrStr : Option String → Option String → Option String
  | some s, fallback => if s = "" then fallback else some s
  | none, fallback => fallback

/-- Source lines 184-205: getNodesFromTree walks the tree object in key order,
emitting the flattened record for each node before descending into its
children, then continuing with the following sibling. -/
def getNodesFromTreeAux : List (String × Node) → Option String → List FlatNode
  | [], _ => []
  | (k, Node.mk p i r s f a (some cs)) :: rest, parent =>
    { id := k, parent := jsOrStr p parent, index := i, indexRange := r,
      selectAction := s, isFocusable := f, activeChild := a }
      :: (getNodesFromTreeAux cs (some k) ++ getNodesFromTreeAux rest parent)
  | (k, Node.mk p i r s f a none) :: rest, parent =>
    { id := k, parent := jsOrStr p parent, index := i, indexRange := r,
      selectAction := s, isFocusable := f, activeChild := a }
      :: getNodesFromTreeAux rest parent

def getNodesFromTree (tree : List (String × Node)) : List FlatNode :=
  getNodesFromTreeAux tree none

/-- Parent rule written from the claim wording of C4: the record parent equals
the explicit parent field of the node whenever that field is present, and
otherwise the id of the structural parent in the walk. -/
def parentRuleClaim : Option String → Option String → Option String
  | some s, _ => some s
  | none, fallback => fallback

/-- Amended parent rule: the explicit parent field wins only when it is present
and non-empty; an absent or empty explicit parent falls back to the structural
parent of the walk. -/
def parentRuleAmended (explicitP structuralP : Option String) : Option String :=
  if explicitP = none ∨ explicitP = some "" then structuralP else explicitP

/-- Tree flattener written from the claim wording of C4, parameterised by the
rule that combines the explicit parent field with the structural parent: one
record per node in depth-first pre-order, fields copied, id overridden with
the key, children stripped. -/
def getNodesSpecAux (rule : Option String → Option String → Option String) :
    List (String × Node) → Option String → List FlatNode
  | [], _ => []
  | (k, Node.mk p i r s f a (some cs)) :: rest, parent =>
    { id := k, parent := rule p parent, index := i, indexRange := r,
      selectAction := s, isFocusable := f, activeChild := a }
      :: (getNodesSpecAux rule cs (some k) ++ getNodesSpecAux rule rest parent)
  | (k, Node.mk p i r s f a none) :: rest, parent =>
    { id := k, parent := rule p parent, index := i, indexRange := r,
      selectAction := s, isFocusable := f, activeChild := a }
      :: getNodesSpecAux rule rest parent

/-- Source lines 164-182: isNodeInTree keeps a mutable boolean that is set when
a key equals nodeId; the forEach walk visits every key of the current object
and recurses into every children object unconditionally.  The second component
is ghost instrumentation recording, in visit order, the keys the walk iterates
over: the source computes exactly the first component. -/
def isNodeInTreeTraceAux (nodeId : String) : List (String × Node) → Bool → Bool × List String
  | [], acc => (acc, [])
  | (k, Node.mk _ _ _ _ _ _ (some cs)) :: rest, acc =>
    let acc1 := if nodeId = k then true else acc
    let res1 := isNodeInTreeTraceAux nodeId cs acc1
    let res2 := isNodeInTreeTraceAux nodeId rest res1.1
    (res2.1, k :: (res1.2 ++ res2.2))
  | (k, Node.mk _ _ _ _ _ _ none) :: rest, acc =>
    let acc1 := if nodeId = k then true else acc
    let res2 := isNodeInTreeTraceAux nodeId rest acc1
    (res2.1, k :: res2.2)

def isNodeInTree (nodeId : String) (tree : List (String × Node)) : Bool :=
  (isNodeInTreeTraceAux nodeId tree false).1

/-- Traversal written from the claim wording of C5: same walk, except that it
stops further recursive descent into children once the match boolean has been
set, while still completing iteration over the keys of the current object. -/
def isNodeInTreeSpecTraceAux (nodeId : String) : List (String × Node) → Bool → Bool × List String
  | [], acc => (acc, [])
  | (k, Node.mk _ _ _ _ _ _ (some cs)) :: rest, acc =>
    let acc1 := if nodeId = k then true else acc
    let res1 := if acc1 then (acc1, ([] : List String)) else isNodeInTreeSpecTraceAux nodeId cs acc1
    let res2 := isNodeInTreeSpecTraceAux nodeId rest res1.1
    (res2.1, k :: (res1.2 ++ res2.2))
  | (k, Node.mk _ _ _ _ _ _ none) :: rest, acc =>
    let acc1 := if nodeId = k then true else acc
    let res2 := isNodeInTreeSpecTraceAux nodeId rest acc1
    (res2.1, k :: res2.2)

/-- Does the first list start with the second one. -/
def listStarts : List Char → List Char → Bool
  | _, [] => true
  | [], _ :: _ => false
  | a :: s, b :: p => a = b && listStarts s p

/-- Does the first list end with the second one. -/
def listEnds (s p : List Char) : Bool :=
  decide (p.length ≤ s.length) && decide (s.drop (s.length - p.length) = p)

/-- Does the second list occur contiguously anywhere inside the first one. -/
def listContains : List Char → List Char → Bool
  | [], p => listStarts [] p
  | a :: t, p => listStarts (a :: t) p || listContains t p

/-- Source lines 63-76: isNodeInPath tests three patterns on the dot-joined
path: the path starts with id followed by a dot (lastIndexOf with fromIndex 0),
ends with a dot followed by id (indexOf anchored at length minus suffix
length), or contains dot id dot anywhere.  The node argument of the source is
consulted only for node.id, so the embedding takes the id directly. -/
def isNodeInPath (path : String) (nodeId : String) : Bool :=
  listStarts path.toList (nodeId.toList ++ ['.']) ||
  listEnds path.toList ('.' :: nodeId.toList) ||
  listContains path.toList ('.' :: nodeId.toList ++ ['.'])

/-- Integer step of the reduce inside Closest, for sequences of proper
numbers: a later element replaces the current best only on a strictly smaller
distance to the goal. -/
def intStep (goal : Int) (prev curr : Int) : Int :=
  if (curr - goal).natAbs < (prev - goal).natAbs then curr else prev

/-- Nearest-value function written from the claim wording of C2: scanning left
to right, the result is the first element of the sequence whose distance to
the goal is less than or equal to the distance of every element of the
sequence, so equal-distance ties go to the earlier element. -/
def closestSpec (vs : List Int) (goal : Int) : Option Int :=
  vs.find? (fun v => vs.all (fun w => decide ((v - goal).natAbs ≤ (w - goal).natAbs)))

/-! Concrete fixtures used by witnesses and counterexamples. -/

/-- Node with explicit isFocusable false and a present selectAction. -/
def nodeExplicitFalse : Node := Node.mk none none none true (some false) none none

/-- Node with only a present selectAction. -/
def nodeSelectOnly : Node := Node.mk none none none true none none none

/-- Node with no focus-related field at all. -/
def nodeEmpty : Node := Node.mk none none none false none none none

/-- Focusable child with index 0. -/
def childX : Node := Node.mk none (some 0) none true none none none

/-- Focusable child with index 5. -/
def childY : Node := Node.mk none (some 5) none true none none none

/-- Parent whose activeChild is the index-5 child: with indexRange [4, 6] the
shortcut must return the active child even though index 0 is closest to the
target 0. -/
def nodeShortcut : Node :=
  Node.mk none none none false none (some "y") (some [("x", childX), ("y", childY)])

/-- Non-focusable childless child with index 5, listed before the focusable
candidate with the same index. -/
def badChild : Node := Node.mk none (some 5) none false none none none

/-- Focusable child with index 5, listed after badChild. -/
def goodChild : Node := Node.mk none (some 5) none true none none none

/-- Parent whose only navigable candidate is goodChild, while badChild shares
its index and precedes it in iteration order. -/
def nodeShadowed : Node :=
  Node.mk none none none false none none (some [("bad", badChild), ("good", goodChild)])

/-- Focusable child with index 0, stored under the empty-string key. -/
def emptyKeyChild : Node := Node.mk none (some 0) none true none none none

/-- Parent whose only child, a focusable candidate with index 0, is keyed with
the empty string: the truthiness guard on the found key makes the final lookup
return null although the candidate set is non-empty. -/
def nodeEmptyKey : Node :=
  Node.mk none none none false none none (some [("", emptyKeyChild)])

/-- Tree whose inner node carries an explicit empty-string parent field. -/
def treeEmptyParent : List (String × Node) :=
  [("a", Node.mk none none none false none none
      (some [("b", Node.mk (some "") none none false none none none)]))]

/-- The tree of the C4 example: a at index 0 with child b at index 0. -/
def treeFlattenExample : List (String × Node) :=
  [("a", Node.mk none (some 0) none false none none
      (some [("b", Node.mk none (some 0) none false none none none)]))]

/-- The tree of the C5 example: a with child b, no other fields. -/
def treeMembershipExample : List (String × Node) :=
  [("a", Node.mk none none none false none none
      (some [("b", Node.mk none none none false none none none)]))]

/-! Helper lemmas. -/

theorem lookupChild_mem (cs : List (String × Node)) (a : String) (n : Node)
    (h : lookupChild cs a = some n) : ∃ k, (k, n) ∈ cs := by
  induction cs with
  | nil => simp [lookupChild] at h
  | cons kn rest ih =>
    obtain ⟨k, m⟩ := kn
    by_cases hk : k = a
    · simp only [lookupChild, if_pos hk, Option.some.injEq] at h
      exact ⟨k, by simp [h]⟩
    · simp only [lookupChild, if_neg hk] at h
      obtain ⟨k2, hm⟩ := ih h
      exact ⟨k2, List.mem_cons_of_mem _ hm⟩

theorem mem_candidateIndexes (cs : List (String × Node)) (k : String) (n : Node)
    (hmem : (k, n) ∈ cs) (hnav : (isNodeFocusable n || n.children.isSome) = true) :
    n.index ∈ candidateIndexes cs := by
  unfold candidateIndexes
  exact List.mem_map_of_mem _ (List.mem_filter.mpr ⟨hmem, hnav⟩)

theorem firstMatchKey_exists (tgt : Option Int) :
    ∀ cs : List (String × Node), (∃ k n, (k, n) ∈ cs ∧ n.index = tgt) →
      ∃ k, firstMatchKey cs tgt = some k := by
  intro cs
  induction cs with
  | nil => rintro ⟨k, n, hmem, _⟩; simp at hmem
  | cons kn rest ih =>
    rintro ⟨k, n, hmem, hidx⟩
    obtain ⟨k1, m⟩ := kn
    by_cases he : m.index = tgt
    · exact ⟨k1, by simp [firstMatchKey, he]⟩
    · rcases List.mem_cons.mp hmem with h1 | h1
      · exact absurd (by rw [← (Prod.mk.injEq .. |>.mp h1).2, hidx]) he
      · obtain ⟨k2, hk⟩ := ih ⟨k, n, h1, hidx⟩
        exact ⟨k2, by simp [firstMatchKey, he, hk]⟩

theorem lookupChild_of_firstMatchKey (tgt : Option Int) :
    ∀ (cs : List (String × Node)) (k : String), firstMatchKey cs tgt = some k →
      ∃ n, lookupChild cs k = some n := by
  intro cs
  induction cs with
  | nil => intro k hk; simp [firstMatchKey] at hk
  | cons kn rest ih =>
    intro k hk
    obtain ⟨k1, m⟩ := kn
    by_cases he : m.index = tgt
    · simp only [firstMatchKey, if_pos he, Option.some.injEq] at hk
      subst hk
      exact ⟨m, by simp [lookupChild]⟩
    · simp only [firstMatchKey, if_neg he] at hk
      obtain ⟨n, hn⟩ := ih k hk
      by_cases hkk : k1 = k
      · exact ⟨m, by simp [lookupChild, hkk]⟩
      · exact ⟨n, by simp [lookupChild, hkk, hn]⟩

theorem foldl_closest_mem (goal : Int) :
    ∀ (l : List (Option Int)) (v : Option Int),
      l.foldl (fun prev curr => if jsAbsLt goal curr prev then curr else prev) v ∈ v :: l := by
  intro l
  induction l with
  | nil => intro v; simp
  | cons c t ih =>
    intro v
    simp only [List.foldl_cons]
    rcases List.mem_cons.mp (ih (if jsAbsLt goal c v then c else v)) with h1 | h1
    · rw [h1]
      by_cases hj : jsAbsLt goal c v = true
      · simp [hj]
      · simp [hj]
    · exact List.mem_cons_of_mem _ (List.mem_cons_of_mem _ h1)

theorem ClosestJS_mem (values : List (Option Int)) (goal : Int) (v : Option Int)
    (h : ClosestJS values goal = some v) : v ∈ values := by
  cases values with
  | nil => simp [ClosestJS] at h
  | cons a t =>
    simp only [ClosestJS, Option.some.injEq] at h
    have hm := foldl_closest_mem goal t a
    rw [h] at hm
    exact hm

theorem ClosestJS_isSome (values : List (Option Int)) (goal : Int) (h : values ≠ []) :
    ∃ v, ClosestJS values goal = some v := by
  cases values with
  | nil => exact absurd rfl h
  | cons a t => exact ⟨_, rfl⟩

theorem shortcutChild_focusable_mem (node : Node) (cs : List (String × Node))
    (ir : Option (Int × Int)) (ac : Node) (h : shortcutChild node cs ir = some ac) :
    isNodeFocusable ac = true ∧ ∃ k, (k, ac) ∈ cs := by
  unfold shortcutChild at h
  cases ir with
  | none => simp at h
  | some r =>
    cases hA : activeChildOf node cs with
    | none => rw [hA] at h; simp at h
    | some m =>
      rw [hA] at h
      by_cases hcond : (jsGeOpt m.index r.1 && jsLeOpt m.index r.2 && isNodeFocusable m) = true
      · simp only [if_pos hcond, Option.some.injEq] at h
        subst h
        have hfoc : isNodeFocusable m = true := by
          have := hcond
          simp only [Bool.and_eq_true] at this
          exact this.2
        refine ⟨hfoc, ?_⟩
        unfold activeChildOf at hA
        cases hact : node.activeChild with
        | none => rw [hact] at hA; simp at hA
        | some a => rw [hact] at hA; exact lookupChild_mem cs a m hA
      · simp only [if_neg hcond] at h
        exact Option.noConfusion h

/-- C6: isNodeFocusable returns the isFocusable field whenever it is
explicitly set, so an explicit false wins even when selectAction is present;
otherwise it returns the truthiness of selectAction; in particular a node with
isFocusable false and a selectAction is not focusable, a node with only a
selectAction is focusable, and an empty node is not focusable. -/
theorem isNodeFocusable_explicit_wins :
    (∀ (node : Node) (b : Bool), node.isFocusable = some b → isNodeFocusable node = b) ∧
    (∀ node : Node, node.isFocusable = none → isNodeFocusable node = node.selectAction) ∧
    isNodeFocusable nodeExplicitFalse = false ∧
    isNodeFocusable nodeSelectOnly = true ∧
    isNodeFocusable nodeEmpty = false := by
  refine ⟨?_, ?_, rfl, rfl, rfl⟩
  · intro node b h
    simp [isNodeFocusable, h]
  · intro node h
    simp [isNodeFocusable, h]

/-- Witness for C6 at a concrete node with an explicitly set isFocusable. -/
theorem isNodeFocusable_explicit_wins_witness :
    nodeExplicitFalse.isFocusable = some false ∧ isNodeFocusable nodeExplicitFalse = false :=
  ⟨rfl, isNodeFocusable_explicit_wins.1 nodeExplicitFalse false rfl⟩

/-- C1: when an indexRange is supplied and the activeChild of the node
resolves to a child whose index lies inside the range inclusive and which is
focusable, _findChildWithClosestIndex returns that active child for every
target index and every configuration of the other children, so the
candidate-index set is never consulted. -/
theorem findChildWithClosestIndex_shortcut (node : Node) (cs : List (String × Node))
    (a : String) (c : Node) (i r1 r2 idx : Int)
    (hc : node.children = some cs) (ha : node.activeChild = some a)
    (hl : lookupChild cs a = some c) (hi : c.index = some i)
    (h1 : r1 ≤ i) (h2 : i ≤ r2) (hf : isNodeFocusable c = true) :
    _findChildWithClosestIndex node idx (some (r1, r2)) = Except.ok (some c) := by
  have hsc : shortcutChild node cs (some (r1, r2)) = some c := by
    simp only [shortcutChild, activeChildOf, ha, hl]
    simp [jsGeOpt, jsLeOpt, hi, hf, h1, h2]
  unfold _findChildWithClosestIndex
  rw [hc]
  simp [hsc]

/-- Witness for C1: the active child with index 5 inside the range [4, 6] is
returned for target index 0 although the index-0 sibling would be the nearest
candidate, as the second conjunct shows for the call without an indexRange. -/
theorem findChildWithClosestIndex_shortcut_witness :
    _findChildWithClosestIndex nodeShortcut 0 (some (4, 6)) = Except.ok (some childY) ∧
    _findChildWithClosestIndex nodeShortcut 0 none = Except.ok (some childX) :=
  ⟨findChildWithClosestIndex_shortcut nodeShortcut [("x", childX), ("y", childY)]
      "y" childY 5 4 6 0 rfl rfl rfl rfl (by decide) (by decide) rfl,
    rfl⟩

/-- C9: after the closest candidate index is computed the returned child is
resolved over all children, not only over the candidate set: for the node
whose non-focusable childless child shares index 5 with the focusable
candidate and precedes it in iteration order, the function returns the
non-focusable childless child, although the navigable candidate set contains
only the focusable child. -/
theorem findChildWithClosestIndex_scans_all_children :
    _findChildWithClosestIndex nodeShadowed 5 none = Except.ok (some badChild) ∧
    isNodeFocusable badChild = false ∧
    badChild.children = none ∧
    ([("bad", badChild), ("good", goodChild)]).filter
        (fun kn => isNodeFocusable kn.2 || kn.2.children.isSome) = [("good", goodChild)] :=
  ⟨rfl, rfl, rfl, rfl⟩

/-- C3 counterexample: the claim says that with children present and a
non-empty navigable candidate set the function returns a non-null child, but
for the node whose only child, a focusable candidate with index 0, is stored
under the empty-string key, the source finds the matching key, the truthiness
test on the empty-string key fails, and null is returned although the
candidate set is non-empty. -/
theorem findChildWithClosestIndex_emptyKey_counterexample :
    nodeEmptyKey.children = some [("", emptyKeyChild)] ∧
    candidateIndexes [("", emptyKeyChild)] = [some 0] ∧
    _findChildWithClosestIndex nodeEmptyKey 0 none = Except.ok none :=
  ⟨rfl, rfl, rfl⟩

/-- C3 amended: _findChildWithClosestIndex returns null when the node has no
children and when the navigable candidate set of the children is empty; in
every other case, shortcut or not, it returns some child, unless the first
child whose index equals the resolved closest index is stored under the
empty-string key, which is falsy in JS, in which case the final lookup inside
_findChildWithIndex degrades to null as well. -/
theorem findChildWithClosestIndex_null_policy (node : Node) (idx : Int)
    (ir : Option (Int × Int)) :
    (node.children = none → _findChildWithClosestIndex node idx ir = Except.ok none) ∧
    (∀ cs, node.children = some cs → candidateIndexes cs = [] →
      _findChildWithClosestIndex node idx ir = Except.ok none) ∧
    (∀ cs, node.children = some cs → candidateIndexes cs ≠ [] →
      (∃ c, _findChildWithClosestIndex node idx ir = Except.ok (some c)) ∨
      (_findChildWithClosestIndex node idx ir = Except.ok none ∧
        ∃ tgt, ClosestJS (candidateIndexes cs) idx = some tgt ∧
          firstMatchKey cs tgt = some "")) := by
  refine ⟨?_, ?_, ?_⟩
  · intro h
    unfold _findChildWithClosestIndex
    rw [h]
  · intro cs hc hempty
    have hsc : shortcutChild node cs ir = none := by
      cases hs : shortcutChild node cs ir with
      | none => rfl
      | some ac =>
        obtain ⟨hfoc, k, hmem⟩ := shortcutChild_focusable_mem node cs ir ac hs
        have : ac.index ∈ candidateIndexes cs :=
          mem_candidateIndexes cs k ac hmem (by simp [hfoc])
        rw [hempty] at this
        simp at this
    unfold _findChildWithClosestIndex
    rw [hc]
    simp [hsc, hempty]
  · intro cs hc hne
    unfold _findChildWithClosestIndex
    rw [hc]
    cases hs : shortcutChild node cs ir with
    | some ac => exact Or.inl ⟨ac, by simp [hs]⟩
    | none =>
      have hlen : ¬ (candidateIndexes cs).length ≤ 0 := by
        cases hcs : candidateIndexes cs with
        | nil => exact absurd hcs hne
        | cons a t => simp [hcs]
      obtain ⟨v, hv⟩ := ClosestJS_isSome (candidateIndexes cs) idx hne
      have hvmem : v ∈ candidateIndexes cs := ClosestJS_mem _ idx v hv
      unfold candidateIndexes at hvmem
      obtain ⟨kn, hknf, hkni⟩ := List.mem_map.mp hvmem
      have hknmem : kn ∈ cs := List.mem_of_mem_filter hknf
      obtain ⟨k, hk⟩ := firstMatchKey_exists v cs ⟨kn.1, kn.2, by simpa using hknmem, hkni⟩
      by_cases hke : k = ""
      · subst hke
        refine Or.inr ⟨?_, v, hv, hk⟩
        simp only [hs, if_neg hlen, hv]
        simp only [_findChildWithIndex, hc, findChildWithIndexIn, hk]
        simp
      · obtain ⟨c, hlc⟩ := lookupChild_of_firstMatchKey v cs k hk
        refine Or.inl ⟨c, ?_⟩
        simp only [hs, if_neg hlen, hv]
        simp only [_findChildWithIndex, hc, findChildWithIndexIn, hk, if_neg hke, hlc]

/-- Witness for C3 amended at concrete nodes: a childless node yields null, a
node whose only child is neither focusable nor a container yields null, a node
with a truthy-keyed focusable child reaches the non-null disjunct, and the
node whose sole candidate sits under the empty-string key also satisfies the
amended disjunction. -/
theorem findChildWithClosestIndex_null_policy_witness :
    _findChildWithClosestIndex nodeEmpty 0 none = Except.ok none ∧
    _findChildWithClosestIndex
      (Node.mk none none none false none none (some [("dead", nodeEmpty)])) 0 none
        = Except.ok none ∧
    ((∃ c, _findChildWithClosestIndex nodeShadowed 5 none = Except.ok (some c)) ∨
      (_findChildWithClosestIndex nodeShadowed 5 none = Except.ok none ∧
        ∃ tgt, ClosestJS (candidateIndexes [("bad", badChild), ("good", goodChild)]) 5 = some tgt ∧
          firstMatchKey [("bad", badChild), ("good", goodChild)] tgt = some "")) ∧
    ((∃ c, _findChildWithClosestIndex nodeEmptyKey 0 none = Except.ok (some c)) ∨
      (_findChildWithClosestIndex nodeEmptyKey 0 none = Except.ok none ∧
        ∃ tgt, ClosestJS (candidateIndexes [("", emptyKeyChild)]) 0 = some tgt ∧
          firstMatchKey [("", emptyKeyChild)] tgt = some "")) :=
  ⟨(findChildWithClosestIndex_null_policy nodeEmpty 0 none).1 rfl,
    (findChildWithClosestIndex_null_policy
        (Node.mk none none none false none none (some [("dead", nodeEmpty)])) 0 none).2.1
      [("dead", nodeEmpty)] rfl rfl,
    (findChildWithClosestIndex_null_policy nodeShadowed 5 none).2.2
      [("bad", badChild), ("good", goodChild)] rfl (by decide),
    (findChildWithClosestIndex_null_policy nodeEmptyKey 0 none).2.2
      [("", emptyKeyChild)] rfl (by decide)⟩

/-- C8: Closest applied to an empty sequence is the erroneous case, modelled
by none; on any non-empty sequence it returns some element of the sequence;
and _findChildWithClosestIndex never reaches the erroneous case because it
checks candidate-set emptiness before invoking Closest. -/
theorem Closest_empty_precondition :
    (∀ goal : Int, ClosestJS [] goal = none) ∧
    (∀ (vs : List (Option Int)) (goal : Int), vs ≠ [] →
      ∃ v, ClosestJS vs goal = some v ∧ v ∈ vs) ∧
    (∀ (node : Node) (idx : Int) (ir : Option (Int × Int)),
      _findChildWithClosestIndex node idx ir ≠ Except.error ()) := by
  refine ⟨fun _ => rfl, ?_, ?_⟩
  · intro vs goal hne
    obtain ⟨v, hv⟩ := ClosestJS_isSome vs goal hne
    exact ⟨v, hv, ClosestJS_mem vs goal v hv⟩
  · intro node idx ir
    unfold _findChildWithClosestIndex
    cases hc : node.children with
    | none => simp
    | some cs =>
      cases hs : shortcutChild node cs ir with
      | some ac => simp [hs]
      | none =>
        by_cases hlen : (candidateIndexes cs).length ≤ 0
        · simp [hs, hlen]
        · have hne : candidateIndexes cs ≠ [] := by
            intro hnil
            rw [hnil] at hlen
            simp at hlen
          obtain ⟨v, hv⟩ := ClosestJS_isSome (candidateIndexes cs) idx hne
          simp [hs, hlen, hv]

/-- Witness for C8 on a concrete non-empty sequence. -/
theorem Closest_empty_precondition_witness :
    ∃ v, ClosestJS [some 1, some 3] 2 = some v ∧ v ∈ [some 1, some 3] :=
  Closest_empty_precondition.2.1 [some 1, some 3] 2 (by decide)

theorem find_eq_of_agree {α : Type} (p q : α → Bool) :
    ∀ l : List α, (∀ x ∈ l, p x = q x) → l.find? p = l.find? q := by
  intro l
  induction l with
  | nil => intro _; rfl
  | cons a t ih =>
    intro hag
    have ha := hag a (List.mem_cons_self a t)
    rw [List.find?_cons, List.find?_cons, ha, ih (fun x hx => hag x (List.mem_cons_of_mem a hx))]

theorem closestSpec_skip (goal v : Int) (l : List Int)
    (h : ∃ w ∈ l, (w - goal).natAbs < (v - goal).natAbs) :
    closestSpec (v :: l) goal = closestSpec l goal := by
  obtain ⟨w, hwl, hw⟩ := h
  unfold closestSpec
  rw [List.find?_cons]
  have hv : ((v :: l).all (fun x => decide ((v - goal).natAbs ≤ (x - goal).natAbs))) = false := by
    rw [List.all_eq_false]
    exact ⟨w, List.mem_cons_of_mem v hwl, by simpa using Nat.not_le.mpr hw⟩
  rw [hv]
  apply find_eq_of_agree
  intro x hx
  by_cases hxl : (l.all (fun y => decide ((x - goal).natAbs ≤ (y - goal).natAbs))) = true
  · have hxw : (x - goal).natAbs ≤ (w - goal).natAbs := by
      have := List.all_eq_true.mp hxl w hwl
      simpa using this
    have hxv : (x - goal).natAbs ≤ (v - goal).natAbs := Nat.le_of_lt (Nat.lt_of_le_of_lt hxw hw)
    rw [List.all_cons, hxl]
    simp [hxv]
  · have hxl2 := Bool.eq_false_iff.mpr hxl
    rw [hxl2, List.all_cons]
    simp only [Bool.and_eq_false_iff]
    right
    exact hxl2

theorem closestSpec_head (goal v : Int) (l : List Int)
    (h : ∀ w ∈ l, (v - goal).natAbs ≤ (w - goal).natAbs) :
    closestSpec (v :: l) goal = some v := by
  unfold closestSpec
  rw [List.find?_cons]
  have hv : ((v :: l).all (fun x => decide ((v - goal).natAbs ≤ (x - goal).natAbs))) = true := by
    rw [List.all_eq_true]
    intro x hx
    rcases List.mem_cons.mp hx with h1 | h1
    · simp [h1]
    · simpa using h x h1
  rw [hv]

theorem closestSpec_drop_second (goal v c : Int) (rest : List Int)
    (hvc : (v - goal).natAbs ≤ (c - goal).natAbs) :
    closestSpec (v :: c :: rest) goal = closestSpec (v :: rest) goal := by
  by_cases hall : ∀ w ∈ rest, (v - goal).natAbs ≤ (w - goal).natAbs
  · rw [closestSpec_head goal v (c :: rest) (by
      intro w hw
      rcases List.mem_cons.mp hw with h1 | h1
      · rw [h1]; exact hvc
      · exact hall w h1)]
    rw [closestSpec_head goal v rest hall]
  · push_neg at hall
    obtain ⟨w, hwl, hw⟩ := hall
    have hwlt : (w - goal).natAbs < (v - goal).natAbs := Nat.lt_of_not_le (by omega)
    rw [closestSpec_skip goal v (c :: rest) ⟨w, List.mem_cons_of_mem c hwl, hwlt⟩]
    rw [closestSpec_skip goal v rest ⟨w, hwl, hwlt⟩]
    exact closestSpec_skip goal c rest ⟨w, hwl, Nat.lt_of_lt_of_le hwlt hvc⟩

theorem closestSpec_eq_foldl (goal : Int) :
    ∀ (rest : List Int) (v : Int),
      closestSpec (v :: rest) goal = some (rest.foldl (intStep goal) v) := by
  intro rest
  induction rest with
  | nil =>
    intro v
    exact closestSpec_head goal v [] (by intro w hw; simp at hw)
  | cons c t ih =>
    intro v
    simp only [List.foldl_cons]
    by_cases h : (c - goal).natAbs < (v - goal).natAbs
    · rw [show intStep goal v c = c by simp [intStep, h]]
      rw [closestSpec_skip goal v (c :: t) ⟨c, List.mem_cons_self c t, h⟩]
      exact ih c
    · rw [show intStep goal v c = v by simp [intStep, h]]
      rw [closestSpec_drop_second goal v c t (Nat.le_of_not_lt h)]
      exact ih v

theorem foldl_closest_map_some (goal : Int) :
    ∀ (rest : List Int) (v : Int),
      (rest.map some).foldl (fun prev curr => if jsAbsLt goal curr prev then curr else prev) (some v)
        = some (rest.foldl (intStep goal) v) := by
  intro rest
  induction rest with
  | nil => intro v; rfl
  | cons c t ih =>
    intro v
    simp only [List.map_cons, List.foldl_cons]
    have hstep : (if jsAbsLt goal (some c) (some v) then some c else some v)
        = some (intStep goal v c) := by
      by_cases h : (c - goal).natAbs < (v - goal).natAbs <;> simp [jsAbsLt, intStep, h]
    rw [hstep]
    exact ih (intStep goal v c)

/-- C2: on every sequence of proper numbers Closest agrees with the nearest
value function written from the claim: the first element of the sequence at
minimal absolute distance to the goal, so equal-distance ties resolve to the
earlier element; in particular Closest of one, five, ten with goal four is
five, and Closest of one, three with goal two is one. -/
theorem Closest_first_minimizer :
    (∀ (vs : List Int) (goal : Int),
      ClosestJS (vs.map some) goal = (closestSpec vs goal).map some) ∧
    ClosestJS [some 1, some 5, some 10] 4 = some (some 5) ∧
    ClosestJS [some 1, some 3] 2 = some (some 1) := by
  refine ⟨?_, rfl, rfl⟩
  intro vs goal
  cases vs with
  | nil => rfl
  | cons v rest =>
    simp only [List.map_cons, ClosestJS]
    rw [foldl_closest_map_some goal rest v, closestSpec_eq_foldl goal rest v]
    rfl

theorem listStarts_iff : ∀ (p s : List Char), listStarts s p = true ↔ ∃ t, s = p ++ t := by
  intro p
  induction p with
  | nil =>
    intro s
    cases s <;> simp [listStarts]
  | cons b pt ih =>
    intro s
    cases s with
    | nil => simp [listStarts]
    | cons a st =>
      simp only [listStarts, Bool.and_eq_true, decide_eq_true_eq, ih st, List.cons_append,
        List.cons.injEq]
      constructor
      · rintro ⟨hab, t, ht⟩
        exact ⟨t, hab, ht⟩
      · rintro ⟨t, hab, ht⟩
        exact ⟨hab, t, ht⟩

theorem listStarts_length (s p : List Char) (h : listStarts s p = true) : p.length ≤ s.length := by
  obtain ⟨t, rfl⟩ := (listStarts_iff p s).mp h
  simp

theorem listEnds_iff (s p : List Char) : listEnds s p = true ↔ ∃ t, s = t ++ p := by
  unfold listEnds
  simp only [Bool.and_eq_true, decide_eq_true_eq]
  constructor
  · rintro ⟨hlen, hdrop⟩
    refine ⟨s.take (s.length - p.length), ?_⟩
    conv_lhs => rw [← List.take_append_drop (s.length - p.length) s]
    rw [hdrop]
  · rintro ⟨t, rfl⟩
    constructor
    · simp
    · rw [List.length_append, Nat.add_sub_cancel]
      exact List.drop_left t p

theorem listContains_iff : ∀ (s p : List Char), listContains s p = true ↔ ∃ t u, s = t ++ p ++ u := by
  intro s
  induction s with
  | nil =>
    intro p
    unfold listContains
    rw [listStarts_iff]
    constructor
    · rintro ⟨t, ht⟩
      exact ⟨[], t, ht⟩
    · rintro ⟨t, u, htu⟩
      have h0 : t ++ p ++ u = [] := htu.symm
      rw [List.append_assoc] at h0
      obtain ⟨ht, hpu⟩ := List.append_eq_nil.mp h0
      obtain ⟨hp, hu⟩ := List.append_eq_nil.mp hpu
      exact ⟨[], by simp [hp]⟩
  | cons a st ih =>
    intro p
    unfold listContains
    simp only [Bool.or_eq_true, listStarts_iff, ih p]
    constructor
    · rintro (⟨t, ht⟩ | ⟨t, u, htu⟩)
      · exact ⟨[], t, by simpa using ht⟩
      · exact ⟨a :: t, u, by simp [htu]⟩
    · rintro ⟨t, u, htu⟩
      cases t with
      | nil =>
        left
        exact ⟨u, by simpa using htu⟩
      | cons a2 t2 =>
        right
        rw [List.cons_append, List.cons_append, List.cons.injEq] at htu
        exact ⟨t2, u, htu.2⟩

theorem listContains_length : ∀ (s p : List Char), listContains s p = true → p.length ≤ s.length := by
  intro s p h
  obtain ⟨t, u, rfl⟩ := (listContains_iff s p).mp h
  simp
  omega

/-- C7: isNodeInPath holds exactly when the id is the leading segment of the
path, that is the path starts with the id followed by a dot, or the trailing
segment, that is the path ends with a dot followed by the id, or a full
interior segment, that is the path contains the id surrounded by dots. -/
theorem isNodeInPath_segments (path nodeId : String) :
    isNodeInPath path nodeId = true ↔
      (∃ rest, path.toList = nodeId.toList ++ '.' :: rest) ∨
      (∃ pre, path.toList = pre ++ '.' :: nodeId.toList) ∨
      (∃ pre post, path.toList = pre ++ '.' :: nodeId.toList ++ '.' :: post) := by
  unfold isNodeInPath
  simp only [Bool.or_eq_true, listStarts_iff, listEnds_iff, listContains_iff]
  constructor
  · rintro ((⟨t, ht⟩ | ⟨t, ht⟩) | ⟨t, u, htu⟩)
    · exact Or.inl ⟨t, by simpa [List.append_assoc] using ht⟩
    · exact Or.inr (Or.inl ⟨t, ht⟩)
    · refine Or.inr (Or.inr ⟨t, u, ?_⟩)
      rw [htu]
      simp [List.append_assoc]
  · rintro (⟨t, ht⟩ | ⟨t, ht⟩ | ⟨t, u, htu⟩)
    · exact Or.inl (Or.inl ⟨t, by simpa [List.append_assoc] using ht⟩)
    · exact Or.inl (Or.inr ⟨t, ht⟩)
    · refine Or.inr ⟨t, u, ?_⟩
      rw [htu]
      simp [List.append_assoc]

/-- Witness for C7 on the path root dot a dot b: the ids root, a and b are in
the path and the id c is not. -/
theorem isNodeInPath_segments_witness :
    isNodeInPath "root.a.b" "a" = true ∧
    isNodeInPath "root.a.b" "root" = true ∧
    isNodeInPath "root.a.b" "b" = true ∧
    isNodeInPath "root.a.b" "c" = false :=
  ⟨(isNodeInPath_segments "root.a.b" "a").mpr
      (Or.inr (Or.inr ⟨"root".toList, "b".toList, by decide⟩)),
    by decide, by decide, by decide⟩

/-- C10: a path equal to the id itself, with no dot delimiter, never matches:
for every non-empty id, isNodeInPath applied to the id as the whole path and
the same id returns false. -/
theorem isNodeInPath_single_segment (nodeId : String) (h : nodeId ≠ "") :
    isNodeInPath nodeId nodeId = false := by
  unfold isNodeInPath
  have h1 : listStarts nodeId.toList (nodeId.toList ++ ['.']) = false := by
    cases hb : listStarts nodeId.toList (nodeId.toList ++ ['.']) with
    | false => rfl
    | true =>
      have := listStarts_length _ _ hb
      simp at this
  have h2 : listEnds nodeId.toList ('.' :: nodeId.toList) = false := by
    unfold listEnds
    have : ¬ ('.' :: nodeId.toList).length ≤ nodeId.toList.length := by simp
    simp [this]
  have h3 : listContains nodeId.toList ('.' :: nodeId.toList ++ ['.']) = false := by
    cases hb : listContains nodeId.toList ('.' :: nodeId.toList ++ ['.']) with
    | false => rfl
    | true =>
      have hlen := listContains_length _ _ hb
      simp at hlen
      exact absurd hlen (by omega)
  rw [h1, h2, h3]
  rfl

/-- Witness for C10 at the concrete one-letter id a. -/
theorem isNodeInPath_single_segment_witness :
    ("a" : String) ≠ "" ∧ isNodeInPath "a" "a" = false :=
  ⟨by decide, isNodeInPath_single_segment "a" (by decide)⟩

theorem jsOrStr_eq_amended (p q : Option String) : jsOrStr p q = parentRuleAmended p q := by
  cases p with
  | none => simp [jsOrStr, parentRuleAmended]
  | some s =>
    by_cases hs : s = ""
    · simp [jsOrStr, parentRuleAmended, hs]
    · simp [jsOrStr, parentRuleAmended, hs]

theorem getNodesFromTreeAux_eq_amended :
    ∀ (t : List (String × Node)) (parent : Option String),
      getNodesFromTreeAux t parent = getNodesSpecAux parentRuleAmended t parent := by
  intro t parent
  induction t, parent using getNodesFromTreeAux.induct with
  | case1 parent => simp [getNodesFromTreeAux, getNodesSpecAux]
  | case2 k p i r s f a cs rest parent ih1 ih2 =>
    simp only [getNodesFromTreeAux, getNodesSpecAux, ih1, ih2, jsOrStr_eq_amended]
  | case3 k p i r s f a rest parent ih =>
    simp only [getNodesFromTreeAux, getNodesSpecAux, ih, jsOrStr_eq_amended]

/-- C4 counterexample: the claim says the record parent equals the explicit
parent field of the node whenever that field is present, but for the tree
whose inner node b carries the explicit empty-string parent the code emits
parent a, the structural parent, because the JS or-expression treats the
empty string as falsy; the flattener written from the claim wording therefore
disagrees with the code on this tree. -/
theorem getNodesFromTree_claim_counterexample :
    getNodesSpecAux parentRuleClaim treeEmptyParent none ≠ getNodesFromTree treeEmptyParent ∧
    (getNodesFromTree treeEmptyParent).map (fun r => (r.id, r.parent))
      = [("a", none), ("b", some "a")] ∧
    (getNodesSpecAux parentRuleClaim treeEmptyParent none).map (fun r => (r.id, r.parent))
      = [("a", none), ("b", some "")] := by
  refine ⟨?_, ?_, ?_⟩ <;>
    simp [getNodesFromTree, getNodesFromTreeAux, getNodesSpecAux, parentRuleClaim, jsOrStr,
      treeEmptyParent]

/-- C4 amended: getNodesFromTree produces one record per node in depth-first
pre-order, each record copying the node fields, with id the tree key, children
stripped, and parent the explicit parent field when it is present and
non-empty, otherwise the id of the structural parent in the walk (none for
root-level nodes); on the example tree with a at index zero and child b at
index zero it yields the record for a with no parent and then the record for
b with parent a. -/
theorem getNodesFromTree_amended :
    (∀ t : List (String × Node), getNodesFromTree t = getNodesSpecAux parentRuleAmended t none) ∧
    getNodesFromTree treeFlattenExample =
      [{ id := "a", parent := none, index := some 0, indexRange := none,
         selectAction := false, isFocusable := none, activeChild := none },
       { id := "b", parent := some "a", index := some 0, indexRange := none,
         selectAction := false, isFocusable := none, activeChild := none }] := by
  constructor
  · intro t
    exact getNodesFromTreeAux_eq_amended t none
  · simp [getNodesFromTree, getNodesFromTreeAux, jsOrStr, treeFlattenExample]

theorem isNodeInTreeTraceAux_trace (nodeId : String) :
    ∀ (t : List (String × Node)) (acc : Bool),
      (isNodeInTreeTraceAux nodeId t acc).2 = preorderKeys t := by
  intro t
  induction t using preorderKeys.induct with
  | case1 => intro acc; simp [isNodeInTreeTraceAux, preorderKeys]
  | case2 k p i r s f a cs rest ih1 ih2 =>
    intro acc
    simp only [isNodeInTreeTraceAux, preorderKeys, ih1, ih2]
  | case3 k p i r s f a rest ih =>
    intro acc
    simp only [isNodeInTreeTraceAux, preorderKeys, ih]

theorem isNodeInTreeTraceAux_result (nodeId : String) :
    ∀ (t : List (String × Node)) (acc : Bool),
      (isNodeInTreeTraceAux nodeId t acc).1 = (acc || decide (nodeId ∈ preorderKeys t)) := by
  intro t
  induction t using preorderKeys.induct with
  | case1 => intro acc; simp [isNodeInTreeTraceAux, preorderKeys]
  | case2 k p i r s f a cs rest ih1 ih2 =>
    intro acc
    simp only [isNodeInTreeTraceAux, preorderKeys, ih1, ih2]
    by_cases h : nodeId = k
    · simp [h]
    · simp [h, List.mem_cons, List.mem_append, Bool.or_assoc]
  | case3 k p i r s f a rest ih =>
    intro acc
    simp only [isNodeInTreeTraceAux, preorderKeys, ih]
    by_cases h : nodeId = k
    · simp [h]
    · simp [h, List.mem_cons, Bool.or_assoc]

/-- C5 counterexample: the claim says the walk stops further recursive descent
into children once the match boolean has been set, but for the tree whose root
key a matches the searched id the code still descends into the children of a
and iterates the key b, as the instrumented trace shows; the traversal written
from the claim wording visits a alone, so the two traces differ. -/
theorem isNodeInTree_descent_counterexample :
    (isNodeInTreeTraceAux "a" treeMembershipExample false).2 = ["a", "b"] ∧
    (isNodeInTreeSpecTraceAux "a" treeMembershipExample false).2 = ["a"] ∧
    (isNodeInTreeTraceAux "a" treeMembershipExample false).2 ≠
      (isNodeInTreeSpecTraceAux "a" treeMembershipExample false).2 := by
  refine ⟨?_, ?_, ?_⟩ <;>
    simp [isNodeInTreeTraceAux, isNodeInTreeSpecTraceAux, treeMembershipExample]

/-- C5 amended: isNodeInTree returns true exactly when some key of the
recursive tree equals the searched id, the walk is depth-first pre-order, and
the traversal never stops: it iterates every key of every children object
regardless of whether the match boolean is already set, so the instrumented
trace always equals the full pre-order key list; on the example tree the id b
is found and the id c is not. -/
theorem isNodeInTree_membership :
    (∀ (nodeId : String) (t : List (String × Node)),
      (isNodeInTree nodeId t = true ↔ nodeId ∈ preorderKeys t)) ∧
    (∀ (nodeId : String) (t : List (String × Node)) (acc : Bool),
      (isNodeInTreeTraceAux nodeId t acc).2 = preorderKeys t) ∧
    isNodeInTree "b" treeMembershipExample = true ∧
    isNodeInTree "c" treeMembershipExample = false := by
  refine ⟨?_, isNodeInTreeTraceAux_trace, ?_, ?_⟩
  · intro nodeId t
    unfold isNodeInTree
    rw [isNodeInTreeTraceAux_result nodeId t false]
    simp
  · simp [isNodeInTree, isNodeInTreeTraceAux, treeMembershipExample]
  · simp [isNodeInTree, isNodeInTreeTraceAux, treeMembershipExample]

/-- Witness for C5 amended at a concrete id and tree. -/
theorem isNodeInTree_membership_witness :
    isNodeInTree "b" treeMembershipExample = true ∧ ("b" : String) ∈ preorderKeys treeMembershipExample :=
  ⟨(isNodeInTree_membership.1 "b" treeMembershipExample).mpr (by
      simp [preorderKeys, treeMembershipExample]),
    by simp [preorderKeys, treeMembershipExample]⟩
